import Mathlib

/-!
Verification development for the `stefutil` pretty-printing / logging library
(`stefutil/prettier.py`, `stefutil/prettier/prettier_log.py`, `stefutil/primitive.py`).

The Python sources are embedded shallowly:
* strings are `String`, Python `None`-able parameters are `Option _`;
* the value shapes accepted by `PrettyLogger.i` form the inductive `Val`
  (a Python float is represented by its default string form `str(f)`, since
  every operation the renderer performs on a float goes through `str(f)`);
* fallible code (`raise ValueError`) returns `Except String _`;
* the process-wide logger registry and the filesystem touched by
  `os.makedirs` are passed explicitly as state.
-/

namespace Stefutil

/-! ## ANSI escape filtering (`_ansi_escape` / `_filter_ansi`, prettier.py:455-472)

The regex is ESC followed by either a C1 Fe byte (`[@-Z\\-_]`) or by `[`,
then parameter bytes `[0-?]*`, intermediate bytes (0x20-0x2F) and one final
byte `[@-~]`; `_filter_ansi` substitutes every match by the empty string,
scanning left to right.
-/

def escChar : Char := '\x1b'

/-- `[@-Z\\-_]`: the 7-bit C1 Fe bytes except CSI, i.e. 0x40-0x5A and 0x5C-0x5F. -/
def isFeByte (c : Char) : Bool :=
  (0x40 ≤ c.toNat && c.toNat ≤ 0x5A) || (0x5C ≤ c.toNat && c.toNat ≤ 0x5F)

/-- `[0-?]`: CSI parameter bytes 0x30-0x3F. -/
def isParamByte (c : Char) : Bool := 0x30 ≤ c.toNat && c.toNat ≤ 0x3F

/-- CSI intermediate bytes 0x20-0x2F. -/
def isIntermediateByte (c : Char) : Bool := 0x20 ≤ c.toNat && c.toNat ≤ 0x2F

/-- `[@-~]`: CSI final bytes 0x40-0x7E. -/
def isFinalByte (c : Char) : Bool := 0x40 ≤ c.toNat && c.toNat ≤ 0x7E

/-- Given the characters following an ESC, return the characters after the
regex match (`some rest`), or `none` if the regex does not match here. -/
def matchEscape : List Char → Option (List Char)
  | [] => Option.none
  | c :: cs =>
    if isFeByte c then some cs
    else if c = '[' then
      match (cs.dropWhile isParamByte).dropWhile isIntermediateByte with
      | f :: rest => if isFinalByte f then some rest else Option.none
      | [] => Option.none
    else Option.none

/-- `re.sub` of the ANSI pattern by `''`: drop every leftmost non-overlapping
match, keep every other character.  The scan is fuel-indexed so that the
recursion is structural; a successful match never consumes more characters
than it was given, so fuel `l.length` (as used by `filterAnsiAux`) never runs
out and the zero-fuel branch is unreachable. -/
def filterAnsiFuel : Nat → List Char → List Char
  | 0, l => l
  | _ + 1, [] => []
  | fuel + 1, c :: cs =>
    if c = escChar then
      match matchEscape cs with
      | some rest => filterAnsiFuel fuel rest
      | Option.none => c :: filterAnsiFuel fuel cs
    else c :: filterAnsiFuel fuel cs

def filterAnsiAux (l : List Char) : List Char := filterAnsiFuel l.length l

def _filter_ansi (txt : String) : String := String.mk (filterAnsiAux txt.data)

/-- No position of the list starts a match of the ANSI regex, i.e. the text
"contains no ANSI escape sequence". -/
def noAnsiStart : List Char → Bool
  | [] => true
  | c :: cs => (if c = escChar then (matchEscape cs).isNone else true) && noAnsiStart cs

/-! ## `colorama` styling constants used by `PrettyLogger` -/

namespace Colorama

def FORE_YELLOW : String := "\x1b[33m"
def FORE_RED : String := "\x1b[31m"
def FORE_GREEN : String := "\x1b[32m"
def FORE_BLUE : String := "\x1b[34m"
def FORE_MAGENTA : String := "\x1b[35m"
def FORE_RESET : String := "\x1b[39m"
def BACK_RESET : String := "\x1b[49m"
def STYLE_RESET_ALL : String := "\x1b[0m"
def STYLE_BRIGHT : String := "\x1b[1m"

end Colorama

/-! ## The supported value shapes of `PrettyLogger.i`

A Python float is carried by its default string form `str(f)`: both
`float_is_sci` and `PrettyLogger._float` only ever look at `str(f)`.
-/

mutual

inductive Val where
  | str (s : String)
  | int (n : Int)
  | bool (b : Bool)
  | float (sRepr : String)
  | none
  | list (l : ValList)
  | tuple (l : ValList)
  | dict (d : ValDict)

inductive ValList where
  | nil
  | cons (hd : Val) (tl : ValList)

inductive ValDict where
  | nil
  | cons (key : String) (val : Val) (tl : ValDict)

end

/-- Decimal digits of a natural number, mirroring Python `str` on a
non-negative int. -/
def natRepr (n : Nat) : List Char :=
  if h : n < 10 then [Char.ofNat (48 + n)]
  else natRepr (n / 10) ++ [Char.ofNat (48 + n % 10)]
decreasing_by exact Nat.div_lt_self (by omega) (by omega)

/-- Python `str` on an int. -/
def intRepr : Int → String
  | Int.ofNat m => String.mk (natRepr m)
  | Int.negSucc m => "-" ++ String.mk (natRepr (m + 1))

/-- Python f-string conversion of the scalar shapes (`f'{s}'`).  Only the
scalar constructors are ever reached from `PrettyLogger.i`: dicts, lists and
tuples are dispatched to `_dict` / `_list` / `_tuple` first. -/
def Val.pyStr : Val → String
  | Val.str s => s
  | Val.int n => intRepr n
  | Val.bool b => if b then "True" else "False"
  | Val.float sRepr => sRepr
  | Val.none => "None"
  | Val.list _ => ""
  | Val.tuple _ => ""
  | Val.dict _ => ""

def Val.isNone : Val → Bool
  | Val.none => true
  | _ => false

/-- Concatenation of dicts, used to place a pair in an arbitrary position
of a dict when stating theorems. -/
def ValDict.append : ValDict → ValDict → ValDict
  | ValDict.nil, d2 => d2
  | ValDict.cons k v tl, d2 => ValDict.cons k v (ValDict.append tl d2)

/-! ## Python string helpers -/

/-- Python `str.replace(pat, repl)` on character lists, for a non-empty
pattern `p :: ps`: replace every leftmost non-overlapping occurrence. -/
def listReplace (p : Char) (ps : List Char) (repl : List Char) : List Char → List Char
  | [] => []
  | c :: cs =>
    if (p :: ps).isPrefixOf (c :: cs) then repl ++ listReplace p ps repl (cs.drop ps.length)
    else c :: listReplace p ps repl cs
termination_by l => l.length
decreasing_by
  · simp only [List.length_cons, List.length_drop]; omega
  · simp only [List.length_cons]; omega

/-- Python `s.replace(pat, repl)`. -/
def pyReplace (s pat repl : String) : String :=
  match pat.data with
  | [] => s
  | p :: ps => String.mk (listReplace p ps repl.data s.data)

/-- Python `sep.join(lst)`. -/
def joinSep (sep : String) : List String → String
  | [] => ""
  | [x] => x
  | x :: xs => x ++ sep ++ joinSep sep xs

/-- Python `f'{s:>{pad}}'`: right-justify in a field of `pad` spaces. -/
def padLeftSpaces (s : String) (pad : Nat) : String :=
  if s.length ≥ pad then s
  else String.mk (List.replicate (pad - s.length) ' ') ++ s

/-! ## `PrettyLogger` (prettier.py:133-305) -/

namespace PrettyLogger

/-- `reset = colorama.Fore.RESET + colorama.Back.RESET + colorama.Style.RESET_ALL` -/
def reset : String := Colorama.FORE_RESET ++ Colorama.BACK_RESET ++ Colorama.STYLE_RESET_ALL

/-- The style table `PrettyLogger.key2c` (prettier.py:138-159). -/
def key2c : String → Option String
  | "log" => some ""
  | "warn" => some Colorama.FORE_YELLOW
  | "error" => some Colorama.FORE_RED
  | "err" => some Colorama.FORE_RED
  | "success" => some Colorama.FORE_GREEN
  | "suc" => some Colorama.FORE_GREEN
  | "info" => some Colorama.FORE_BLUE
  | "i" => some Colorama.FORE_BLUE
  | "w" => some Colorama.FORE_RED
  | "y" => some Colorama.FORE_YELLOW
  | "yellow" => some Colorama.FORE_YELLOW
  | "red" => some Colorama.FORE_RED
  | "r" => some Colorama.FORE_RED
  | "green" => some Colorama.FORE_GREEN
  | "g" => some Colorama.FORE_GREEN
  | "blue" => some Colorama.FORE_BLUE
  | "b" => some Colorama.FORE_BLUE
  | "m" => some Colorama.FORE_MAGENTA
  | _ => Option.none

/-- The `as_str=True` branch of `PrettyLogger.log` (prettier.py:161-177). -/
def log_as_str (msg : String) (c : String) (bold : Bool) (pad : Option Nat) : String :=
  let cnr : String × Bool :=
    match key2c c with
    | some code => (code, true)
    | Option.none => (c, false)
  let cnr : String × Bool := if bold then (cnr.1 ++ Colorama.STYLE_BRIGHT, true) else cnr
  let rst : String := if cnr.2 then reset else ""
  match pad with
  | some p => if p ≠ 0 then cnr.1 ++ padLeftSpaces msg p ++ rst else cnr.1 ++ msg ++ rst
  | Option.none => cnr.1 ++ msg ++ rst

/-- `PrettyLogger.s` (prettier.py:179-185): `c = c if with_color else ''`,
then `log(s, c=c, as_str=True, bold=bold)`. -/
def s (msg : String) (c : String) (bold : Bool) (with_color : Bool) : String :=
  log_as_str msg (if with_color then c else "") bold Option.none

end PrettyLogger

/-- Modelled from the spec: `float_is_sci` is called by `PrettyLogger._float`
(prettier.py:209) but is not defined anywhere under the sources
(`stefutil/primitive.py` does not export it).  The spec describes the float
branch as "scientific-notation detection — if the default string form
contains an exponent", so the predicate holds iff `str(f)` contains an
exponent marker. -/
def float_is_sci (sRepr : String) : Bool :=
  sRepr.data.any (fun c => c = 'e' || c = 'E')

namespace PrettyLogger

/-- `PrettyLogger._float` (prettier.py:207-214); the float is carried as its
default string form `str(f)`. -/
def _float (sRepr : String) (pad : Option Nat) : String :=
  if float_is_sci sRepr then
    pyReplace (pyReplace sRepr "e-0" "e-") "e+0" "e+"
  else
    match pad with
    | some p => if p ≠ 0 then padLeftSpaces sRepr p else sRepr
    | Option.none => sRepr

end PrettyLogger

/-- The `for_path` keyword takes the Python values `False`, `True` and
`'shorter-bool'`. -/
inductive ForPath where
  | no
  | yes
  | shorterBool
deriving DecidableEq

/-- Python truthiness of the `for_path` value. -/
def ForPath.truthy : ForPath → Bool
  | ForPath.no => false
  | _ => true

/-- The keyword arguments threaded through `PrettyLogger.i` / `_dict` /
`_iter`, with their Python defaults. -/
structure RenderOpts where
  with_color : Bool := true
  pad_float : Option Nat := Option.none
  key_value_sep : String := ": "
  pairs_sep : String := ", "
  for_path : ForPath := ForPath.no
  omit_none_val : Bool := false

namespace PrettyLogger

mutual

/-- `PrettyLogger.i` (prettier.py:187-205).  The float branch stringifies via
`_float` and re-dispatches `i` on the resulting string, which lands in the
scalar branch with the same remaining kwargs; that recursion is inlined. -/
def i (v : Val) (o : RenderOpts) : String :=
  match v with
  | Val.dict d => _dict d o
  | Val.list l => _list l o.with_color o.for_path
  | Val.tuple l => _tuple l o.with_color o.for_path
  | Val.float sRepr => s (_float sRepr o.pad_float) "i" false o.with_color
  | v => s (Val.pyStr v) "i" false o.with_color

/-- `PrettyLogger._iter` (prettier.py:245-251). -/
def _iter (it : ValList) (with_color : Bool) (pref post : String) (for_path : ForPath) : String :=
  let pref := if with_color then s pref "m" false true else pref
  let post := if with_color then s post "m" false true else post
  let lst := iElems it with_color
  let sep := if for_path.truthy then "," else ", "
  pref ++ joinSep sep lst ++ post

/-- The element list `[PrettyLogger.i(e, with_color=with_color) for e in it]`
of `_iter`: every other kwarg is reset to its default. -/
def iElems (it : ValList) (with_color : Bool) : List String :=
  match it with
  | ValList.nil => []
  | ValList.cons e tl => i e { with_color := with_color } :: iElems tl with_color

/-- `PrettyLogger._list` (prettier.py:253-255). -/
def _list (lst : ValList) (with_color : Bool) (for_path : ForPath) : String :=
  _iter lst with_color "[" "]" for_path

/-- `PrettyLogger._tuple` (prettier.py:257-259). -/
def _tuple (tpl : ValList) (with_color : Bool) (for_path : ForPath) : String :=
  _iter tpl with_color "(" ")" for_path

/-- `PrettyLogger._dict` (prettier.py:261-305). -/
def _dict (d : ValDict) (o : RenderOpts) : String :=
  let key_value_sep := if o.for_path.truthy then "=" else o.key_value_sep
  let key_value_sep := if o.with_color then s key_value_sep "m" false true else key_value_sep
  let pairs := dictPairs d o key_value_sep
  let pref := if o.with_color then s "\x7b" "m" false true else "\x7b"
  let post := if o.with_color then s "\x7d" "m" false true else "\x7d"
  pref ++ joinSep o.pairs_sep pairs ++ post

/-- The pair generator of `_dict` (prettier.py:301): a pair with a `None`
value under `omit_none_val` contributes the bare key `k`, otherwise
`f'{k}{key_value_sep}{_log_val(v)}'`. -/
def dictPairs (d : ValDict) (o : RenderOpts) (key_value_sep : String) : List String :=
  match d with
  | ValDict.nil => []
  | ValDict.cons k v tl =>
    (if o.omit_none_val && Val.isNone v then k else k ++ key_value_sep ++ _log_val v o)
      :: dictPairs tl o key_value_sep

/-- `_log_val` inside `_dict` (prettier.py:270-294). -/
def _log_val (v : Val) (o : RenderOpts) : String :=
  match v with
  | Val.dict d => i (Val.dict d) o
  | Val.list l => i (Val.list l) { with_color := o.with_color, for_path := o.for_path }
  | Val.tuple l => i (Val.tuple l) { with_color := o.with_color, for_path := o.for_path }
  | Val.bool b =>
    if o.for_path = ForPath.shorterBool then (if b then "T" else "F")
    else i (Val.bool b) { with_color := o.with_color, pad_float := o.pad_float }
  | v => i v { with_color := o.with_color, pad_float := o.pad_float }

end

/-- `PrettyLogger.nc` (prettier.py:224-229): `i` without color. -/
def nc (v : Val) : String := i v { with_color := false }

/-- `PrettyLogger.pa` (prettier.py:216-222) with its default
`shorter_bool=True` and no extra kwargs; the Python code asserts that the
argument is a dict. -/
def pa (d : ValDict) : String :=
  i (Val.dict d) { for_path := ForPath.shorterBool, with_color := false, pairs_sep := "," }

end PrettyLogger

/-! ## `HandlerFilter` (prettier.py:437-451, prettier_log.py:306-320)

`filter` reads `block = getattr(record, 'block', None)` and returns `False`
iff `block` is truthy and equals the handler's name.  The record's `block`
extra field is `Option String` (absent/`None` is `Option.none`); a handler
is constructed with `handler_name=kind`, but the parameter defaults to
`None`, hence `Option String` as well. -/

namespace HandlerFilter

def filter (handler_name : Option String) (block : Option String) : Bool :=
  match block with
  | Option.none => true
  | some b => if b ≠ "" ∧ handler_name = some b then false else true

end HandlerFilter

/-! ## Logging handlers and loggers (prettier.py:484-521)

The filesystem touched by `os.makedirs` is a list of existing directory
names; the process-wide logger registry is an association list from logger
name to logger state. -/

/-- One constructed `logging.Handler`: `stream_stdout` distinguishes
`StreamHandler(sys.stdout)` from `CleanAnsiFileHandler(file_path)`; the
remaining fields record `setLevel`, `setFormatter(MyFormatter(with_color=…))`
and `addFilter(HandlerFilter(handler_name=…))`. -/
structure LogHandler where
  stream_stdout : Bool
  file_path : Option String
  level : Nat
  formatter_with_color : Bool
  filter_handler_name : Option String
deriving DecidableEq

/-- `logging.DEBUG` -/
def DEBUG_LEVEL : Nat := 10

/-- The directories that exist (`os.path.exists` / `os.makedirs`). -/
abbrev FS : Type := List String

/-- Python truthiness of an `Optional[str]`. -/
def optStrTruthy : Option String → Bool
  | Option.none => false
  | some s => s ≠ ""

/-- `os.path.dirname` (posixpath): the part before the final slash; a
nonempty head that is not all slashes has its trailing slashes stripped. -/
def dirname (p : String) : String :=
  let ds := p.data
  let tailLen := (ds.reverse.takeWhile (fun c => c ≠ '/')).length
  let head := ds.take (ds.length - tailLen)
  if head ≠ [] ∧ head.any (fun c => c ≠ '/') then
    String.mk ((head.reverse.dropWhile (fun c => c = '/')).reverse)
  else String.mk head

/-- `get_logging_handler` (prettier.py:484-500).  `kind='both'` recursively
builds the stdout handler and the file handler; otherwise one handler is
built and the common tail sets its level, formatter and filter.  The single
handler of the base case is returned as a one-element list (`get_logger`
normalizes a non-list result to a singleton list anyway). -/
def get_logging_handler (kind : String) (file_path : Option String) (fs : FS) :
    Except String (List LogHandler × FS) :=
  if kind = "both" then
    match get_logging_handler "stdout" Option.none fs with
    | Except.error e => Except.error e
    | Except.ok (hs1, fs1) =>
      match get_logging_handler "file" file_path fs1 with
      | Except.error e => Except.error e
      | Except.ok (hs2, fs2) => Except.ok (hs1 ++ hs2, fs2)
  else
    match
      (if kind = "stdout" then
        Except.ok (({ stream_stdout := true, file_path := Option.none, level := 0,
                      formatter_with_color := false, filter_handler_name := Option.none } : LogHandler), fs)
      else if ¬ optStrTruthy file_path then
        Except.error (PrettyLogger.i Val.none {} ++ " must be specified for "
          ++ PrettyLogger.i (Val.str "file") {} ++ " logging")
      else
        let fp := file_path.getD ""
        let dnm := dirname fp
        let fs : FS := if dnm ≠ "" ∧ ¬ dnm ∈ fs then dnm :: fs else fs
        Except.ok (({ stream_stdout := false, file_path := some fp, level := 0,
                      formatter_with_color := false, filter_handler_name := Option.none } : LogHandler), fs))
    with
    | Except.error e => Except.error e
    | Except.ok (handler, fs1) =>
      Except.ok ([{ handler with
          level := DEBUG_LEVEL, formatter_with_color := (kind == "stdout"),
          filter_handler_name := some kind }], fs1)
termination_by (if kind = "both" then 1 else 0)
decreasing_by
  · rename_i h; simp [h]
  · rename_i h; simp [h]

/-- The handler produced by `get_logging_handler(kind='stdout')`. -/
def stdoutHandler : LogHandler :=
  { stream_stdout := true
    file_path := Option.none
    level := DEBUG_LEVEL
    formatter_with_color := true
    filter_handler_name := some "stdout" }

/-- The state of one `logging.Logger`. -/
structure Logger where
  handlers : List LogHandler
  level : Nat
  propagate : Bool
deriving DecidableEq

/-- A logger as first created by `logging.getLogger`: no handlers, level
`NOTSET`, propagation enabled. -/
def freshLogger : Logger := { handlers := [], level := 0, propagate := true }

/-- The logger state `get_logger(name, kind='stdout')` leaves behind. -/
def stdoutLogger : Logger :=
  { handlers := [stdoutHandler], level := DEBUG_LEVEL, propagate := false }

abbrev LoggerRegistry : Type := List (String × Logger)

/-- Set/overwrite a key in an association list. -/
def assocSet {α : Type} (l : List (String × α)) (k : String) (v : α) : List (String × α) :=
  match l with
  | [] => [(k, v)]
  | (n, x) :: tl => if n = k then (k, v) :: tl else (n, x) :: assocSet tl k v

/-- `logging.getLogger(name)`: the registered logger, or a fresh one. -/
def logging_getLogger (reg : LoggerRegistry) (name : String) : Logger :=
  ((List.lookup name reg).getD freshLogger)

/-- `get_logger` (prettier.py:503-521).  Successive mutations of the shared
logger object are modelled by threading the logger value and storing it back
into the registry; the `assert` is an `Except.error`. -/
def get_logger (reg : LoggerRegistry) (fs : FS) (name kind : String) (file_path : Option String) :
    Except String (LoggerRegistry × FS × Logger) :=
  if ¬ (kind = "stdout" ∨ kind = "file-write" ∨ kind = "both") then
    Except.error "AssertionError"
  else
    let nm := if kind = "file" then name ++ " file" else name
    let logger := logging_getLogger reg nm
    let logger := { logger with handlers := [] }
    let logger := { logger with level := DEBUG_LEVEL }
    match get_logging_handler kind file_path fs with
    | Except.error e => Except.error e
    | Except.ok (handlers, fs1) =>
      let logger := { logger with handlers := logger.handlers ++ handlers }
      let logger := { logger with propagate := false }
      Except.ok (assocSet reg nm logger, fs1, logger)

/-! ## `CheckArg` (prettier.py:846-894, prettier_log.py:528-584)

A cached validation closure captures its `display_name` and the accepted
value list, so the registry `d_name2func` maps an attribute name to that
pair. -/

structure CheckArg where
  d_name2func : List (String × (String × List String)) := []
deriving DecidableEq

/-- `CheckArg.cache_mismatch` (prettier.py:887-888): unconditionally stores
the closure under `attr_name`, overwriting any existing entry. -/
def CheckArg.cache_mismatch (c : CheckArg) (display_name attr_name : String)
    (accepted_values : List String) : CheckArg :=
  { c with d_name2func := assocSet c.d_name2func attr_name (display_name, accepted_values) }

/-- `CheckArg.cache_options` (prettier_log.py:573-578): raises if `attr_name`
is already registered, otherwise stores the closure.  (The source styles the
attribute name in the error message with the style engine of
`prettier_debug.py`, which is not part of the sources; the styling is
omitted here.) -/
def CheckArg.cache_options (c : CheckArg) (display_name attr_name : String)
    (options : List String) : Except String CheckArg :=
  if (List.lookup attr_name c.d_name2func).isSome then
    Except.error ("Attribute name " ++ attr_name ++ " already exists")
  else
    Except.ok { c with d_name2func := assocSet c.d_name2func attr_name (display_name, options) }

/-! ## Character-cleanliness predicates over values

Used to state which inputs keep the renderer's output free of a given
character (the ESC byte for the ANSI claims, `'/'` for the path-safe claim). -/

def noBadChar (bad : Char → Bool) (l : List Char) : Bool := l.all (fun c => !bad c)

mutual

/-- Every string leaf and float representation of the value avoids `bad`. -/
def Val.clean (bad : Char → Bool) : Val → Bool
  | Val.str s => noBadChar bad s.data
  | Val.int _ => true
  | Val.bool _ => true
  | Val.float sRepr => noBadChar bad sRepr.data
  | Val.none => true
  | Val.list l => ValList.clean bad l
  | Val.tuple l => ValList.clean bad l
  | Val.dict d => ValDict.clean bad d

def ValList.clean (bad : Char → Bool) : ValList → Bool
  | ValList.nil => true
  | ValList.cons v tl => Val.clean bad v && ValList.clean bad tl

/-- Keys are rendered verbatim, so they must avoid `bad` as well. -/
def ValDict.clean (bad : Char → Bool) : ValDict → Bool
  | ValDict.nil => true
  | ValDict.cons k v tl => noBadChar bad k.data && Val.clean bad v && ValDict.clean bad tl

end

def isEscBad (c : Char) : Bool := c = escChar

def isSlashBad (c : Char) : Bool := c = '/'

/-- Every character the renderer can emit that does not come from a string
leaf, a dict key, a float representation or a caller-supplied separator:
brackets, default separators, `True`/`False`/`T`/`F`/`None`, int digits and
sign, the float exponent characters and the padding space. -/
def fixedChars : List Char := "\x7b\x7d[](),:= TrueFalsNon0123456789e+-".data

/-- A sample value exercising every supported shape: string, int, bool,
float (scientific and plain), `None`, list, tuple and a nested dict. -/
def sampleVal : Val :=
  Val.dict (ValDict.cons "a" (Val.int 42)
    (ValDict.cons "b" (Val.list (ValList.cons (Val.bool true)
        (ValList.cons (Val.str "x") ValList.nil)))
      (ValDict.cons "c" (Val.dict (ValDict.cons "d" (Val.float "3e-05")
          (ValDict.cons "e" Val.none ValDict.nil)))
        (ValDict.cons "f" (Val.tuple (ValList.cons (Val.float "2.5") ValList.nil))
          ValDict.nil))))

/-! # Theorems

## ANSI filter infrastructure -/

theorem mk_data (s : String) : String.mk s.data = s := by cases s; rfl

theorem matchEscape_length_le (cs rest : List Char) (h : matchEscape cs = some rest) :
    rest.length ≤ cs.length := by
  unfold matchEscape at h
  cases cs with
  | nil => exact absurd h (by simp)
  | cons c' cs' =>
    simp only at h
    split at h
    · injection h with h
      subst h
      exact Nat.le_succ _
    · split at h
      · have hsub : ((cs'.dropWhile isParamByte).dropWhile isIntermediateByte).length ≤ cs'.length :=
          le_trans ((List.dropWhile_sublist _).length_le) ((List.dropWhile_sublist _).length_le)
        split at h
        · rename_i f rest' heq
          split at h
          · injection h with h
            subst h
            rw [heq] at hsub
            simp only [List.length_cons] at hsub ⊢
            omega
          · exact absurd h (by simp)
        · exact absurd h (by simp)
      · exact absurd h (by simp)

/-- Any fuel at least the length of the list computes `filterAnsiAux`. -/
theorem filterAnsiFuel_eq (fuel : Nat) (l : List Char) (h : l.length ≤ fuel) :
    filterAnsiFuel fuel l = filterAnsiAux l := by
  induction fuel using Nat.strong_induction_on generalizing l with
  | _ fuel ih =>
    match fuel, l with
    | 0, l =>
      have : l = [] := List.eq_nil_of_length_eq_zero (Nat.le_zero.mp h)
      subst this
      rfl
    | fuel + 1, [] => rfl
    | fuel + 1, c :: cs =>
      simp only [List.length_cons] at h
      show filterAnsiFuel (fuel + 1) (c :: cs) = filterAnsiFuel (cs.length + 1) (c :: cs)
      simp only [filterAnsiFuel]
      by_cases hc : c = escChar
      · rw [if_pos hc, if_pos hc]
        cases hm : matchEscape cs with
        | none =>
          have h1 := ih fuel (by omega) cs (by omega)
          have h2 := ih cs.length (by omega) cs (by omega)
          exact congrArg (fun x => c :: x) (h1.trans h2.symm)
        | some rest =>
          have hr := matchEscape_length_le cs rest hm
          have h1 := ih fuel (by omega) rest (by omega)
          have h2 := ih cs.length (by omega) rest (by omega)
          exact h1.trans h2.symm
      · rw [if_neg hc, if_neg hc]
        have h1 := ih fuel (by omega) cs (by omega)
        have h2 := ih cs.length (by omega) cs (by omega)
        exact congrArg (fun x => c :: x) (h1.trans h2.symm)

theorem filterAnsiAux_nil : filterAnsiAux [] = [] := rfl

theorem filterAnsiAux_cons_ne (c : Char) (cs : List Char) (hc : c ≠ escChar) :
    filterAnsiAux (c :: cs) = c :: filterAnsiAux cs := by
  show filterAnsiFuel (cs.length + 1) (c :: cs) = _
  simp only [filterAnsiFuel]
  rw [if_neg hc, filterAnsiFuel_eq cs.length cs (le_refl _)]

theorem filterAnsiAux_esc_match (cs rest : List Char) (h : matchEscape cs = some rest) :
    filterAnsiAux (escChar :: cs) = filterAnsiAux rest := by
  show filterAnsiFuel (cs.length + 1) (escChar :: cs) = _
  simp only [filterAnsiFuel]
  rw [if_pos trivial, h]
  exact filterAnsiFuel_eq cs.length rest (matchEscape_length_le cs rest h)

theorem filterAnsiAux_esc_nomatch (cs : List Char) (h : matchEscape cs = Option.none) :
    filterAnsiAux (escChar :: cs) = escChar :: filterAnsiAux cs := by
  show filterAnsiFuel (cs.length + 1) (escChar :: cs) = _
  simp only [filterAnsiFuel]
  rw [if_pos trivial, h]
  exact congrArg (fun x => escChar :: x) (filterAnsiFuel_eq cs.length cs (le_refl _))

/-- The filtered output is never longer than the input. -/
theorem filterAnsiAux_length_le (l : List Char) : (filterAnsiAux l).length ≤ l.length := by
  suffices hs : ∀ n (l : List Char), l.length ≤ n → (filterAnsiAux l).length ≤ l.length from
    hs l.length l (le_refl _)
  intro n
  induction n using Nat.strong_induction_on with
  | _ n ih =>
    intro l hl
    match l with
    | [] => simp [filterAnsiAux_nil]
    | c :: cs =>
      simp only [List.length_cons] at hl
      by_cases hc : c = escChar
      · subst hc
        cases hm : matchEscape cs with
        | some rest =>
          rw [filterAnsiAux_esc_match cs rest hm]
          have hr := matchEscape_length_le cs rest hm
          have hi := ih rest.length (by omega) rest (le_refl _)
          simp only [List.length_cons]
          omega
        | none =>
          rw [filterAnsiAux_esc_nomatch cs hm]
          have hi := ih cs.length (by omega) cs (le_refl _)
          simp only [List.length_cons]
          omega
      · rw [filterAnsiAux_cons_ne c cs hc]
        have hi := ih cs.length (by omega) cs (le_refl _)
        simp only [List.length_cons]
        omega

/-- A failed match stays failed when the text continues with an ESC-headed
suffix: the appended part cannot complete an unfinished CSI, because ESC is not a
parameter, intermediate, final or Fe byte. -/
theorem matchEscape_append_esc (cs m : List Char) (h : matchEscape cs = Option.none) :
    matchEscape (cs ++ escChar :: m) = Option.none := by
  cases cs with
  | nil =>
    show matchEscape (escChar :: m) = Option.none
    simp only [matchEscape]
    rw [if_neg (by decide : ¬ isFeByte escChar = true), if_neg (by decide : ¬ escChar = '[')]
  | cons c' cs' =>
    simp only [matchEscape] at h ⊢
    simp only [List.cons_append]
    by_cases hfe : isFeByte c' = true
    · rw [if_pos hfe] at h
      exact absurd h (by simp)
    · rw [if_neg hfe] at h ⊢
      by_cases hbr : c' = '['
      · rw [if_pos hbr] at h ⊢
        rw [List.dropWhile_append]
        by_cases hemp : (cs'.dropWhile isParamByte).isEmpty = true
        · rw [if_pos hemp]
          have : (escChar :: m).dropWhile isParamByte = escChar :: m := by
            rw [List.dropWhile_cons, if_neg (by decide)]
          rw [this]
          have : (escChar :: m).dropWhile isIntermediateByte = escChar :: m := by
            rw [List.dropWhile_cons, if_neg (by decide)]
          rw [this]
          simp only [if_neg (by decide : ¬ isFinalByte escChar = true)]
        · rw [if_neg hemp]
          rw [List.dropWhile_append]
          by_cases hemp2 : ((cs'.dropWhile isParamByte).dropWhile isIntermediateByte).isEmpty = true
          · rw [if_pos hemp2]
            have : (escChar :: m).dropWhile isIntermediateByte = escChar :: m := by
              rw [List.dropWhile_cons, if_neg (by decide)]
            rw [this]
            simp only [if_neg (by decide : ¬ isFinalByte escChar = true)]
          · rw [if_neg hemp2]
            cases hb : (cs'.dropWhile isParamByte).dropWhile isIntermediateByte with
            | nil => rw [hb] at hemp2; exact absurd List.isEmpty_nil hemp2
            | cons f r =>
              rw [hb] at h
              have h' : (if isFinalByte f = true then some r
                  else (Option.none : Option (List Char))) = Option.none := h
              have hfin : ¬ isFinalByte f = true := by
                intro hf
                rw [if_pos hf] at h'
                exact Option.noConfusion h'
              show (if isFinalByte f = true then some (r ++ escChar :: m)
                  else (Option.none : Option (List Char))) = Option.none
              rw [if_neg hfin]
      · rw [if_neg hbr] at h ⊢

/-- Characters at which the ANSI regex never matches pass through unchanged,
even in front of an ESC-headed continuation. -/
theorem filterAnsiAux_append_esc (l m : List Char) (h : noAnsiStart l = true) :
    filterAnsiAux (l ++ escChar :: m) = l ++ filterAnsiAux (escChar :: m) := by
  induction l with
  | nil => simp
  | cons c cs ih =>
    simp only [noAnsiStart, Bool.and_eq_true] at h
    obtain ⟨h1, h2⟩ := h
    by_cases hc : c = escChar
    · subst hc
      rw [if_pos rfl, Option.isNone_iff_eq_none] at h1
      rw [List.cons_append, filterAnsiAux_esc_nomatch _ (matchEscape_append_esc cs m h1),
        ih h2, List.cons_append]
    · rw [List.cons_append, filterAnsiAux_cons_ne c _ hc, ih h2, List.cons_append]

/-- ESC-free text passes through the filter in front of anything. -/
theorem filterAnsiAux_append_noesc (l m : List Char) (h : ∀ c ∈ l, c ≠ escChar) :
    filterAnsiAux (l ++ m) = l ++ filterAnsiAux m := by
  induction l with
  | nil => simp
  | cons c cs ih =>
    rw [List.cons_append, filterAnsiAux_cons_ne c _ (h c (by simp)),
      ih (fun x hx => h x (by simp [hx])), List.cons_append]

theorem noAnsiStart_of_noesc (l : List Char) (h : ∀ c ∈ l, c ≠ escChar) :
    noAnsiStart l = true := by
  induction l with
  | nil => rfl
  | cons c cs ih =>
    simp only [noAnsiStart, Bool.and_eq_true]
    exact ⟨by rw [if_neg (h c (by simp))], ih fun x hx => h x (by simp [hx])⟩

theorem filterAnsiAux_id_of_noAnsiStart (l : List Char) (h : noAnsiStart l = true) :
    filterAnsiAux l = l := by
  induction l with
  | nil => rfl
  | cons c cs ih =>
    simp only [noAnsiStart, Bool.and_eq_true] at h
    obtain ⟨h1, h2⟩ := h
    by_cases hc : c = escChar
    · subst hc
      rw [if_pos rfl, Option.isNone_iff_eq_none] at h1
      rw [filterAnsiAux_esc_nomatch cs h1, ih h2]
    · rw [filterAnsiAux_cons_ne c cs hc, ih h2]

/-- A filter fixed point contains no ANSI escape sequence: a successful match
would strictly shorten the output. -/
theorem noAnsiStart_of_fixed (l : List Char) (h : filterAnsiAux l = l) :
    noAnsiStart l = true := by
  suffices hs : ∀ n (l : List Char), l.length ≤ n → filterAnsiAux l = l → noAnsiStart l = true from
    hs l.length l (le_refl _) h
  intro n
  induction n using Nat.strong_induction_on with
  | _ n ih =>
    intro l hl hfix
    match l with
    | [] => rfl
    | c :: cs =>
      simp only [List.length_cons] at hl
      by_cases hc : c = escChar
      · subst hc
        cases hm : matchEscape cs with
        | some rest =>
          exfalso
          rw [filterAnsiAux_esc_match cs rest hm] at hfix
          have hle := filterAnsiAux_length_le rest
          have hr := matchEscape_length_le cs rest hm
          have hlen := congrArg List.length hfix
          simp only [List.length_cons] at hlen
          omega
        | none =>
          rw [filterAnsiAux_esc_nomatch cs hm] at hfix
          injection hfix with _ hfix
          simp only [noAnsiStart, if_pos rfl, hm, Option.isNone_none, Bool.true_and]
          exact ih cs.length (by omega) cs (le_refl _) hfix
      · rw [filterAnsiAux_cons_ne c cs hc] at hfix
        injection hfix with _ hfix
        simp only [noAnsiStart, if_neg hc, Bool.true_and]
        exact ih cs.length (by omega) cs (le_refl _) hfix

theorem dropWhile_append_all {p : Char → Bool} (a b : List Char) (h : ∀ c ∈ a, p c = true) :
    (a ++ b).dropWhile p = b.dropWhile p := by
  induction a with
  | nil => rfl
  | cons c cs ih =>
    rw [List.cons_append, List.dropWhile_cons, if_pos (h c (by simp))]
    exact ih fun x hx => h x (by simp [hx])

/-- The regex consumes a complete CSI sequence exactly, whatever follows. -/
theorem matchEscape_csi (ps : List Char) (f : Char) (rest : List Char)
    (hps : ∀ c ∈ ps, isParamByte c = true) (hf : isFinalByte f = true)
    (hfp : isParamByte f = false) (hfi : isIntermediateByte f = false) :
    matchEscape ('[' :: (ps ++ f :: rest)) = some rest := by
  simp only [matchEscape]
  rw [if_neg (by decide : ¬ isFeByte '[' = true), if_pos trivial,
    dropWhile_append_all ps _ hps, List.dropWhile_cons, if_neg (by simp [hfp]),
    List.dropWhile_cons, if_neg (by simp [hfi])]
  simp only [if_pos hf]

theorem filterAnsiAux_csi (ps : List Char) (f : Char) (rest : List Char)
    (hps : ∀ c ∈ ps, isParamByte c = true) (hf : isFinalByte f = true)
    (hfp : isParamByte f = false) (hfi : isIntermediateByte f = false) :
    filterAnsiAux (escChar :: '[' :: (ps ++ f :: rest)) = filterAnsiAux rest :=
  filterAnsiAux_esc_match _ rest (matchEscape_csi ps f rest hps hf hfp hfi)

/-- Prepending any style code of the table is invisible to the filter. -/
theorem key2c_code_elim (k code : String) (h : PrettyLogger.key2c k = some code)
    (m : List Char) : filterAnsiAux (code.data ++ m) = filterAnsiAux m := by
  unfold PrettyLogger.key2c at h
  split at h
  all_goals first
    | exact Option.noConfusion h
    | (injection h with h; subst h; first
        | rfl
        | exact filterAnsiAux_csi ['3', '3'] 'm' m (by decide) (by decide) (by decide) (by decide)
        | exact filterAnsiAux_csi ['3', '1'] 'm' m (by decide) (by decide) (by decide) (by decide)
        | exact filterAnsiAux_csi ['3', '2'] 'm' m (by decide) (by decide) (by decide) (by decide)
        | exact filterAnsiAux_csi ['3', '4'] 'm' m (by decide) (by decide) (by decide) (by decide)
        | exact filterAnsiAux_csi ['3', '5'] 'm' m (by decide) (by decide) (by decide) (by decide))

/-- `PrettyLogger.s(text, c=key)` with a table key wraps the text as
`code ++ text ++ reset`. -/
theorem s_eq_code_append (text key code : String) (h : PrettyLogger.key2c key = some code) :
    PrettyLogger.s text key false true = code ++ text ++ PrettyLogger.reset := by
  unfold PrettyLogger.s PrettyLogger.log_as_str
  simp only [if_pos trivial, h, Bool.false_eq_true, if_false, if_true]

/-- The tail of `reset` after its leading ESC. -/
theorem reset_data_eq :
    PrettyLogger.reset.data =
      escChar :: ['[', '3', '9', 'm', escChar, '[', '4', '9', 'm', escChar, '[', '0', 'm'] := by
  decide

/-- C2: for every input string `text` that contains no ANSI escape sequence
(`_filter_ansi text = text`) and every key of the style table
`PrettyLogger.key2c`, stripping the styled string recovers the original
exactly: `_filter_ansi (PrettyLogger.s text key) = text`. -/
theorem C2_strip_style_roundtrip (text key : String)
    (htext : _filter_ansi text = text) (hkey : (PrettyLogger.key2c key).isSome = true) :
    _filter_ansi (PrettyLogger.s text key false true) = text := by
  obtain ⟨code, hcode⟩ := Option.isSome_iff_exists.mp hkey
  have hstart : noAnsiStart text.data = true := by
    apply noAnsiStart_of_fixed
    have hd := congrArg String.data htext
    simpa [_filter_ansi] using hd
  rw [s_eq_code_append text key code hcode]
  unfold _filter_ansi
  have hdata : (code ++ text ++ PrettyLogger.reset).data =
      code.data ++ (text.data ++ PrettyLogger.reset.data) := by
    simp [String.data_append, List.append_assoc]
  rw [hdata, key2c_code_elim key code hcode, reset_data_eq,
    filterAnsiAux_append_esc text.data _ hstart]
  have hreset : filterAnsiAux (escChar ::
      ['[', '3', '9', 'm', escChar, '[', '4', '9', 'm', escChar, '[', '0', 'm']) = [] := by
    decide
  rw [hreset, List.append_nil, mk_data]

/-- Witness for C2 at `text = "hello"`, `key = "g"`. -/
theorem C2_strip_style_roundtrip_witness :
    _filter_ansi "hello" = "hello" ∧ (PrettyLogger.key2c "g").isSome = true ∧
      _filter_ansi (PrettyLogger.s "hello" "g" false true) = "hello" :=
  ⟨by decide, by decide, C2_strip_style_roundtrip "hello" "g" (by decide) (by decide)⟩

/-! ## Renderer output cleanliness -/

theorem noBadChar_append (bad : Char → Bool) (a b : List Char) :
    noBadChar bad (a ++ b) = (noBadChar bad a && noBadChar bad b) := List.all_append

theorem noBadChar_of_subset (bad : Char → Bool) (hfix : ∀ c ∈ fixedChars, bad c = false)
    (l : List Char) (h : ∀ c ∈ l, c ∈ fixedChars) : noBadChar bad l = true := by
  simp only [noBadChar, List.all_eq_true]
  intro c hc
  simp [hfix c (h c hc)]

theorem noBadChar_of_union (bad : Char → Bool) (hfix : ∀ c ∈ fixedChars, bad c = false)
    (base out : List Char) (hb : noBadChar bad base = true)
    (h : ∀ c ∈ out, c ∈ base ∨ c ∈ fixedChars) : noBadChar bad out = true := by
  simp only [noBadChar, List.all_eq_true] at hb ⊢
  intro c hc
  cases h c hc with
  | inl hm => exact hb c hm
  | inr hm => simp [hfix c hm]

theorem noBadChar_joinSep (bad : Char → Bool) (sep : String) (l : List String)
    (hsep : noBadChar bad sep.data = true) (hl : ∀ x ∈ l, noBadChar bad x.data = true) :
    noBadChar bad (joinSep sep l).data = true := by
  induction l with
  | nil => rfl
  | cons x xs ih =>
    cases xs with
    | nil => exact hl x (by simp)
    | cons y ys =>
      show noBadChar bad ((x ++ sep ++ joinSep sep (y :: ys)).data) = true
      rw [String.data_append, String.data_append, noBadChar_append, noBadChar_append,
        hl x (by simp), hsep, ih (fun z hz => hl z (List.mem_cons_of_mem x hz))]
      rfl

theorem digitChar_mem_fixed (k : Nat) (hk : k < 10) : Char.ofNat (48 + k) ∈ fixedChars := by
  interval_cases k <;> decide

theorem natRepr_subset (n : Nat) : ∀ c ∈ natRepr n, c ∈ fixedChars := by
  induction n using Nat.strong_induction_on with
  | _ n ih =>
    rw [natRepr]
    split
    · rename_i h
      intro c hc
      rw [List.mem_singleton] at hc
      subst hc
      exact digitChar_mem_fixed n h
    · rename_i h
      intro c hc
      rw [List.mem_append] at hc
      cases hc with
      | inl hc => exact ih (n / 10) (Nat.div_lt_self (by omega) (by omega)) c hc
      | inr hc =>
        rw [List.mem_singleton] at hc
        subst hc
        exact digitChar_mem_fixed (n % 10) (Nat.mod_lt _ (by omega))

theorem intRepr_subset (n : Int) : ∀ c ∈ (intRepr n).data, c ∈ fixedChars := by
  cases n with
  | ofNat m => exact natRepr_subset m
  | negSucc m =>
    intro c hc
    rw [show (intRepr (Int.negSucc m)).data = '-' :: natRepr (m + 1) from rfl,
      List.mem_cons] at hc
    cases hc with
    | inl hc => subst hc; decide
    | inr hc => exact natRepr_subset (m + 1) c hc

theorem listReplace_chars (p : Char) (ps repl : List Char) :
    ∀ (l : List Char), ∀ c ∈ listReplace p ps repl l, c ∈ l ∨ c ∈ repl := by
  suffices hs : ∀ n (l : List Char), l.length ≤ n →
      ∀ c ∈ listReplace p ps repl l, c ∈ l ∨ c ∈ repl from
    fun l => hs l.length l (le_refl _)
  intro n
  induction n using Nat.strong_induction_on with
  | _ n ih =>
    intro l hl c hc
    match l with
    | [] => rw [listReplace] at hc; exact absurd hc (by simp)
    | a :: as =>
      simp only [List.length_cons] at hl
      rw [listReplace] at hc
      split at hc
      · rw [List.mem_append] at hc
        cases hc with
        | inl h => exact Or.inr h
        | inr h =>
          have hlen : (as.drop ps.length).length ≤ as.length := by
            rw [List.length_drop]; omega
          cases ih as.length (by omega) (as.drop ps.length) (by omega) c h with
          | inl h2 => exact Or.inl (List.mem_cons_of_mem a (List.mem_of_mem_drop h2))
          | inr h2 => exact Or.inr h2
      · rw [List.mem_cons] at hc
        cases hc with
        | inl h => exact Or.inl (by simp [h])
        | inr h =>
          cases ih as.length (by omega) as (le_refl _) c h with
          | inl h2 => exact Or.inl (List.mem_cons_of_mem a h2)
          | inr h2 => exact Or.inr h2

theorem padLeftSpaces_chars (s0 : String) (p : Nat) :
    ∀ c ∈ (padLeftSpaces s0 p).data, c ∈ s0.data ∨ c ∈ fixedChars := by
  unfold padLeftSpaces
  split
  · intro c hc; exact Or.inl hc
  · intro c hc
    rw [show (String.mk (List.replicate (p - s0.length) ' ') ++ s0).data
        = List.replicate (p - s0.length) ' ' ++ s0.data from rfl, List.mem_append] at hc
    cases hc with
    | inl h => right; rw [List.eq_of_mem_replicate h]; decide
    | inr h => exact Or.inl h

theorem _float_chars (sRepr : String) (pad : Option Nat) :
    ∀ c ∈ (PrettyLogger._float sRepr pad).data, c ∈ sRepr.data ∨ c ∈ fixedChars := by
  unfold PrettyLogger._float
  split
  · intro c hc
    have e2 : pyReplace (pyReplace sRepr "e-0" "e-") "e+0" "e+"
        = String.mk (listReplace 'e' ['+', '0'] "e+".data (pyReplace sRepr "e-0" "e-").data) := rfl
    rw [e2] at hc
    have hplus : ∀ c ∈ ("e+".data : List Char), c ∈ fixedChars := by decide
    have hminus : ∀ c ∈ ("e-".data : List Char), c ∈ fixedChars := by decide
    cases listReplace_chars 'e' ['+', '0'] "e+".data _ c hc with
    | inr h => exact Or.inr (hplus c h)
    | inl h =>
      have e1 : pyReplace sRepr "e-0" "e-"
          = String.mk (listReplace 'e' ['-', '0'] "e-".data sRepr.data) := rfl
      rw [e1] at h
      cases listReplace_chars 'e' ['-', '0'] "e-".data _ c h with
      | inl h2 => exact Or.inl h2
      | inr h2 => exact Or.inr (hminus c h2)
  · split
    · split
      · exact padLeftSpaces_chars sRepr _
      · intro c hc; exact Or.inl hc
    · intro c hc; exact Or.inl hc

/-- Styling with `with_color=False` is the identity: the key is replaced by
`''`, which is not in the table, so neither a code nor a reset is emitted. -/
theorem s_nc (msg c0 : String) : PrettyLogger.s msg c0 false false = msg := by
  unfold PrettyLogger.s PrettyLogger.log_as_str
  have h0 : PrettyLogger.key2c "" = Option.none := by decide
  simp only [Bool.false_eq_true, if_false, h0]
  apply String.ext
  simp [String.data_append]

theorem noesc_of_noBadChar (l : List Char) (h : noBadChar isEscBad l = true) :
    ∀ c ∈ l, c ≠ escChar := by
  simp only [noBadChar, List.all_eq_true, isEscBad] at h
  intro c hc
  have hb := h c hc
  simpa using hb

/-- `_iter` with color disabled: raw brackets around the joined elements. -/
theorem _iter_nc (it : ValList) (pref post : String) (fp : ForPath) :
    PrettyLogger._iter it false pref post fp =
      pref ++ joinSep (if fp.truthy then "," else ", ") (PrettyLogger.iElems it false) ++ post := by
  simp [PrettyLogger._iter]

/-- `_dict` with color disabled: raw braces, raw separators; `for_path`
forces the key-value separator to `=`. -/
theorem _dict_nc (d : ValDict) (o : RenderOpts) (hwc : o.with_color = false) :
    PrettyLogger._dict d o = "\x7b" ++ joinSep o.pairs_sep
      (PrettyLogger.dictPairs d o (if o.for_path.truthy then "=" else o.key_value_sep)) ++ "\x7d" := by
  simp [PrettyLogger._dict, hwc]

theorem clean_iElems (bad : Char → Bool) (hfix : ∀ c ∈ fixedChars, bad c = false) (B : Nat)
    (ihv : ∀ v : Val, sizeOf v < B → ∀ o : RenderOpts, o.with_color = false →
      noBadChar bad o.key_value_sep.data = true → noBadChar bad o.pairs_sep.data = true →
      Val.clean bad v = true → noBadChar bad (PrettyLogger.i v o).data = true) :
    ∀ l : ValList, sizeOf l ≤ B → ValList.clean bad l = true →
      ∀ st ∈ PrettyLogger.iElems l false, noBadChar bad st.data = true := by
  suffices hs : ∀ m (l : ValList), sizeOf l ≤ m → sizeOf l ≤ B → ValList.clean bad l = true →
      ∀ st ∈ PrettyLogger.iElems l false, noBadChar bad st.data = true from
    fun l => hs (sizeOf l) l (le_refl _)
  intro m
  induction m using Nat.strong_induction_on with
  | _ m ihm =>
    intro l hm hB hcl st hst
    match l with
    | ValList.nil =>
      simp only [PrettyLogger.iElems] at hst
      exact absurd hst (by simp)
    | ValList.cons v tl =>
      simp only [PrettyLogger.iElems, List.mem_cons] at hst
      simp only [ValList.clean, Bool.and_eq_true] at hcl
      have hlt : sizeOf v < sizeOf (ValList.cons v tl) ∧ sizeOf tl < sizeOf (ValList.cons v tl) := by
        constructor <;> (simp only [ValList.cons.sizeOf_spec]; omega)
      cases hst with
      | inl h =>
        subst h
        exact ihv v (by omega) { with_color := false } rfl
          (noBadChar_of_subset bad hfix _ (by decide))
          (noBadChar_of_subset bad hfix _ (by decide)) hcl.1
      | inr h => exact ihm (sizeOf tl) (by omega) tl (le_refl _) (by omega) hcl.2 st h

theorem clean_log_val (bad : Char → Bool) (hfix : ∀ c ∈ fixedChars, bad c = false) (B : Nat)
    (ihv : ∀ v : Val, sizeOf v < B → ∀ o : RenderOpts, o.with_color = false →
      noBadChar bad o.key_value_sep.data = true → noBadChar bad o.pairs_sep.data = true →
      Val.clean bad v = true → noBadChar bad (PrettyLogger.i v o).data = true) :
    ∀ v : Val, sizeOf v < B → ∀ o : RenderOpts, o.with_color = false →
      noBadChar bad o.key_value_sep.data = true → noBadChar bad o.pairs_sep.data = true →
      Val.clean bad v = true → noBadChar bad (PrettyLogger._log_val v o).data = true := by
  intro v hv o hwc hks hps hcl
  have hdef : noBadChar bad (RenderOpts.key_value_sep {}).data = true :=
    noBadChar_of_subset bad hfix _ (by decide)
  have hdef2 : noBadChar bad (RenderOpts.pairs_sep {}).data = true :=
    noBadChar_of_subset bad hfix _ (by decide)
  match v with
  | Val.dict d =>
    simp only [PrettyLogger._log_val]
    exact ihv _ hv o hwc hks hps hcl
  | Val.list l =>
    simp only [PrettyLogger._log_val]
    exact ihv _ hv _ hwc hdef hdef2 hcl
  | Val.tuple l =>
    simp only [PrettyLogger._log_val]
    exact ihv _ hv _ hwc hdef hdef2 hcl
  | Val.bool b =>
    simp only [PrettyLogger._log_val]
    split
    · split <;> exact noBadChar_of_subset bad hfix _ (by decide)
    · exact ihv _ hv _ hwc hdef hdef2 hcl
  | Val.str s0 =>
    simp only [PrettyLogger._log_val]
    exact ihv _ hv _ hwc hdef hdef2 hcl
  | Val.int n0 =>
    simp only [PrettyLogger._log_val]
    exact ihv _ hv _ hwc hdef hdef2 hcl
  | Val.float r =>
    simp only [PrettyLogger._log_val]
    exact ihv _ hv _ hwc hdef hdef2 hcl
  | Val.none =>
    simp only [PrettyLogger._log_val]
    exact ihv _ hv _ hwc hdef hdef2 hcl

theorem clean_dictPairs (bad : Char → Bool) (hfix : ∀ c ∈ fixedChars, bad c = false) (B : Nat)
    (ihv : ∀ v : Val, sizeOf v < B → ∀ o : RenderOpts, o.with_color = false →
      noBadChar bad o.key_value_sep.data = true → noBadChar bad o.pairs_sep.data = true →
      Val.clean bad v = true → noBadChar bad (PrettyLogger.i v o).data = true) :
    ∀ d : ValDict, sizeOf d ≤ B → ValDict.clean bad d = true →
      ∀ (o : RenderOpts) (sep : String), o.with_color = false →
        noBadChar bad o.key_value_sep.data = true → noBadChar bad o.pairs_sep.data = true →
        noBadChar bad sep.data = true →
        ∀ st ∈ PrettyLogger.dictPairs d o sep, noBadChar bad st.data = true := by
  suffices hs : ∀ m (d : ValDict), sizeOf d ≤ m → sizeOf d ≤ B → ValDict.clean bad d = true →
      ∀ (o : RenderOpts) (sep : String), o.with_color = false →
        noBadChar bad o.key_value_sep.data = true → noBadChar bad o.pairs_sep.data = true →
        noBadChar bad sep.data = true →
        ∀ st ∈ PrettyLogger.dictPairs d o sep, noBadChar bad st.data = true from
    fun d => hs (sizeOf d) d (le_refl _)
  intro m
  induction m using Nat.strong_induction_on with
  | _ m ihm =>
    intro d hm hB hcl o sep hwc hks hps hsep st hst
    match d with
    | ValDict.nil =>
      simp only [PrettyLogger.dictPairs] at hst
      exact absurd hst (by simp)
    | ValDict.cons k v tl =>
      simp only [PrettyLogger.dictPairs, List.mem_cons] at hst
      simp only [ValDict.clean, Bool.and_eq_true] at hcl
      obtain ⟨⟨hk, hv⟩, htl⟩ := hcl
      have hlt : sizeOf v < sizeOf (ValDict.cons k v tl) ∧
          sizeOf tl < sizeOf (ValDict.cons k v tl) := by
        constructor <;> (simp only [ValDict.cons.sizeOf_spec]; omega)
      cases hst with
      | inl h =>
        subst h
        split
        · exact hk
        · rw [String.data_append, String.data_append, noBadChar_append, noBadChar_append,
            hk, hsep, clean_log_val bad hfix B ihv v (by omega) o hwc hks hps hv]
          rfl
      | inr h =>
        exact ihm (sizeOf tl) (by omega) tl (le_refl _) (by omega) htl o sep hwc hks hps hsep st h

/-- With color disabled and `bad`-free separators, rendering a `bad`-clean
value emits no `bad` character: every output character comes from a string
leaf, a key, a float representation, a separator, or the fixed renderer
alphabet. -/
theorem clean_i (bad : Char → Bool) (hfix : ∀ c ∈ fixedChars, bad c = false) :
    ∀ (v : Val) (o : RenderOpts), o.with_color = false →
      noBadChar bad o.key_value_sep.data = true → noBadChar bad o.pairs_sep.data = true →
      Val.clean bad v = true → noBadChar bad (PrettyLogger.i v o).data = true := by
  suffices hs : ∀ n (v : Val), sizeOf v ≤ n → ∀ o : RenderOpts, o.with_color = false →
      noBadChar bad o.key_value_sep.data = true → noBadChar bad o.pairs_sep.data = true →
      Val.clean bad v = true → noBadChar bad (PrettyLogger.i v o).data = true from
    fun v => hs (sizeOf v) v (le_refl _)
  intro n
  induction n using Nat.strong_induction_on with
  | _ n ih =>
    have ihv : ∀ v : Val, sizeOf v < n → ∀ o : RenderOpts, o.with_color = false →
        noBadChar bad o.key_value_sep.data = true → noBadChar bad o.pairs_sep.data = true →
        Val.clean bad v = true → noBadChar bad (PrettyLogger.i v o).data = true :=
      fun v hv => ih (sizeOf v) hv v (le_refl _)
    intro v hsz o hwc hks hps hcl
    match v with
    | Val.str s0 =>
      simp only [PrettyLogger.i, Val.pyStr]
      rw [hwc, s_nc]
      exact hcl
    | Val.int n0 =>
      simp only [PrettyLogger.i, Val.pyStr]
      rw [hwc, s_nc]
      exact noBadChar_of_subset bad hfix _ (intRepr_subset n0)
    | Val.bool b =>
      simp only [PrettyLogger.i, Val.pyStr]
      rw [hwc, s_nc]
      apply noBadChar_of_subset bad hfix
      cases b <;> decide
    | Val.none =>
      simp only [PrettyLogger.i, Val.pyStr]
      rw [hwc, s_nc]
      exact noBadChar_of_subset bad hfix _ (by decide)
    | Val.float r =>
      simp only [PrettyLogger.i]
      rw [hwc, s_nc]
      exact noBadChar_of_union bad hfix r.data _ hcl (_float_chars r o.pad_float)
    | Val.list l =>
      have hl : sizeOf l ≤ n := by
        have h1 : sizeOf l < sizeOf (Val.list l) := by simp [Val.list.sizeOf_spec]
        omega
      simp only [PrettyLogger.i, PrettyLogger._list]
      rw [hwc, _iter_nc]
      have hsep : noBadChar bad (if (o.for_path).truthy then "," else ", ").data = true := by
        split <;> exact noBadChar_of_subset bad hfix _ (by decide)
      rw [String.data_append, String.data_append, noBadChar_append, noBadChar_append]
      rw [noBadChar_of_subset bad hfix _ (by decide : ∀ c ∈ ("[" : String).data, c ∈ fixedChars),
        noBadChar_of_subset bad hfix _ (by decide : ∀ c ∈ ("]" : String).data, c ∈ fixedChars),
        noBadChar_joinSep bad _ _ hsep (clean_iElems bad hfix n ihv l hl hcl)]
      rfl
    | Val.tuple l =>
      have hl : sizeOf l ≤ n := by
        have h1 : sizeOf l < sizeOf (Val.tuple l) := by simp [Val.tuple.sizeOf_spec]
        omega
      simp only [PrettyLogger.i, PrettyLogger._tuple]
      rw [hwc, _iter_nc]
      have hsep : noBadChar bad (if (o.for_path).truthy then "," else ", ").data = true := by
        split <;> exact noBadChar_of_subset bad hfix _ (by decide)
      rw [String.data_append, String.data_append, noBadChar_append, noBadChar_append]
      rw [noBadChar_of_subset bad hfix _ (by decide : ∀ c ∈ ("(" : String).data, c ∈ fixedChars),
        noBadChar_of_subset bad hfix _ (by decide : ∀ c ∈ (")" : String).data, c ∈ fixedChars),
        noBadChar_joinSep bad _ _ hsep (clean_iElems bad hfix n ihv l hl hcl)]
      rfl
    | Val.dict d =>
      have hd : sizeOf d ≤ n := by
        have h1 : sizeOf d < sizeOf (Val.dict d) := by simp [Val.dict.sizeOf_spec]
        omega
      simp only [PrettyLogger.i]
      rw [_dict_nc d o hwc]
      have hsep : noBadChar bad (if (o.for_path).truthy then "=" else o.key_value_sep).data = true := by
        split
        · exact noBadChar_of_subset bad hfix _ (by decide)
        · exact hks
      rw [String.data_append, String.data_append, noBadChar_append, noBadChar_append]
      rw [noBadChar_of_subset bad hfix _ (by decide : ∀ c ∈ ("\x7b" : String).data, c ∈ fixedChars),
        noBadChar_of_subset bad hfix _ (by decide : ∀ c ∈ ("\x7d" : String).data, c ∈ fixedChars),
        noBadChar_joinSep bad _ _ hps (clean_dictPairs bad hfix n ihv d hd hcl o _ hwc hks hps hsep)]
      rfl

/-! ## C1: color-disabled rendering and ANSI escapes -/

/-- C1 (counterexample): the claim fails as universally stated, because a
string value may itself contain ANSI codes and `PrettyLogger.nc` passes
string leaves through verbatim. -/
theorem C1_counterexample :
    _filter_ansi (PrettyLogger.nc (Val.str "\x1b[31mred")) ≠
      PrettyLogger.nc (Val.str "\x1b[31mred") := by
  have h : PrettyLogger.nc (Val.str "\x1b[31mred") = "\x1b[31mred" := by
    show PrettyLogger.i (Val.str "\x1b[31mred") { with_color := false } = _
    simp only [PrettyLogger.i, Val.pyStr]
    exact s_nc _ _
  rw [h]
  decide

/-- C1 (amended): for every supported value shape (string, int, bool, float,
list, tuple, arbitrarily nested dict) whose string leaves, dict keys and
float representations contain no ESC character, rendering with color
disabled (`PrettyLogger.nc`) returns a string containing no ANSI escape
sequence: `_filter_ansi` applied to the output returns it unchanged. -/
theorem C1_nc_ansi_free (v : Val) (h : Val.clean isEscBad v = true) :
    _filter_ansi (PrettyLogger.nc v) = PrettyLogger.nc v := by
  have hfix : ∀ c ∈ fixedChars, isEscBad c = false := by decide
  have hout := clean_i isEscBad hfix v { with_color := false } rfl
    (noBadChar_of_subset _ hfix _ (by decide)) (noBadChar_of_subset _ hfix _ (by decide)) h
  show _filter_ansi (PrettyLogger.i v { with_color := false })
      = PrettyLogger.i v { with_color := false }
  unfold _filter_ansi
  rw [filterAnsiAux_id_of_noAnsiStart _ (noAnsiStart_of_noesc _ (noesc_of_noBadChar _ hout)),
    mk_data]

/-- Witness for C1 (amended) at a value exercising every supported shape. -/
theorem C1_nc_ansi_free_witness :
    Val.clean isEscBad sampleVal = true ∧
      _filter_ansi (PrettyLogger.nc sampleVal) = PrettyLogger.nc sampleVal :=
  ⟨by decide, C1_nc_ansi_free sampleVal (by decide)⟩

/-! ## C9: path-safe rendering -/

/-- C9 (counterexample): `PrettyLogger.pa` renders keys verbatim, so a key
containing a slash puts a slash in the output and the claim fails as
universally stated. -/
theorem C9_counterexample :
    '/' ∈ (PrettyLogger.pa (ValDict.cons "a/b" (Val.bool true) ValDict.nil)).data := by
  have h : PrettyLogger.pa (ValDict.cons "a/b" (Val.bool true) ValDict.nil) = "\x7ba/b=T\x7d" := by
    show PrettyLogger.i (Val.dict (ValDict.cons "a/b" (Val.bool true) ValDict.nil)) _ = _
    simp only [PrettyLogger.i]
    rw [_dict_nc _ _ rfl]
    simp only [PrettyLogger.dictPairs, PrettyLogger._log_val, PrettyLogger.iElems]
    rfl
  rw [h]
  decide

/-- C9 (amended): for every dict whose keys, string leaves and float
representations contain neither `/` nor ESC, path-safe rendering
(`PrettyLogger.pa`) returns a string containing no `/`, containing no ANSI
escape sequence, and built with `=` as key-value separator and `,` (without
a space) as item separator. -/
theorem C9_pa_path_safe (d : ValDict)
    (hslash : ValDict.clean isSlashBad d = true) (hesc : ValDict.clean isEscBad d = true) :
    (∀ c ∈ (PrettyLogger.pa d).data, c ≠ '/')
    ∧ _filter_ansi (PrettyLogger.pa d) = PrettyLogger.pa d
    ∧ PrettyLogger.pa d = "\x7b" ++ joinSep ","
        (PrettyLogger.dictPairs d
          { for_path := ForPath.shorterBool, with_color := false, pairs_sep := "," } "=")
        ++ "\x7d" := by
  have hfixS : ∀ c ∈ fixedChars, isSlashBad c = false := by decide
  have hfixE : ∀ c ∈ fixedChars, isEscBad c = false := by decide
  refine ⟨?_, ?_, ?_⟩
  · have hout := clean_i isSlashBad hfixS (Val.dict d)
      { for_path := ForPath.shorterBool, with_color := false, pairs_sep := "," } rfl
      (noBadChar_of_subset _ hfixS _ (by decide)) (noBadChar_of_subset _ hfixS _ (by decide))
      hslash
    simp only [noBadChar, List.all_eq_true, isSlashBad] at hout
    intro c hc
    have hb := hout c hc
    simpa using hb
  · have hout := clean_i isEscBad hfixE (Val.dict d)
      { for_path := ForPath.shorterBool, with_color := false, pairs_sep := "," } rfl
      (noBadChar_of_subset _ hfixE _ (by decide)) (noBadChar_of_subset _ hfixE _ (by decide))
      hesc
    show _filter_ansi (PrettyLogger.i (Val.dict d) _) = PrettyLogger.i (Val.dict d) _
    unfold _filter_ansi
    rw [filterAnsiAux_id_of_noAnsiStart _ (noAnsiStart_of_noesc _ (noesc_of_noBadChar _ hout)),
      mk_data]
  · show PrettyLogger.i (Val.dict d) _ = _
    simp only [PrettyLogger.i]
    rw [_dict_nc _ _ rfl]
    rfl

/-- Witness for C9 (amended) at `{a: True, b: "x"}`. -/
theorem C9_pa_path_safe_witness :
    ValDict.clean isSlashBad
        (ValDict.cons "a" (Val.bool true) (ValDict.cons "b" (Val.str "x") ValDict.nil)) = true ∧
    ValDict.clean isEscBad
        (ValDict.cons "a" (Val.bool true) (ValDict.cons "b" (Val.str "x") ValDict.nil)) = true ∧
    ((∀ c ∈ (PrettyLogger.pa
        (ValDict.cons "a" (Val.bool true) (ValDict.cons "b" (Val.str "x") ValDict.nil))).data,
        c ≠ '/')
      ∧ _filter_ansi (PrettyLogger.pa
          (ValDict.cons "a" (Val.bool true) (ValDict.cons "b" (Val.str "x") ValDict.nil)))
        = PrettyLogger.pa
          (ValDict.cons "a" (Val.bool true) (ValDict.cons "b" (Val.str "x") ValDict.nil))
      ∧ PrettyLogger.pa
          (ValDict.cons "a" (Val.bool true) (ValDict.cons "b" (Val.str "x") ValDict.nil))
        = "\x7b" ++ joinSep ","
            (PrettyLogger.dictPairs
              (ValDict.cons "a" (Val.bool true) (ValDict.cons "b" (Val.str "x") ValDict.nil))
              { for_path := ForPath.shorterBool, with_color := false, pairs_sep := "," } "=")
            ++ "\x7d") :=
  ⟨by decide, by decide, C9_pa_path_safe _ (by decide) (by decide)⟩

/-! ## C7: `omit_none_val` -/

/-- C7 (counterexample): with `omit_none_val` set, a `None`-valued pair is
rendered as the bare key, so the key is not omitted from the output. -/
theorem C7_counterexample :
    PrettyLogger.i (Val.dict (ValDict.cons "b" Val.none ValDict.nil))
        { with_color := false, omit_none_val := true } = "\x7bb\x7d"
    ∧ 'b' ∈ (PrettyLogger.i (Val.dict (ValDict.cons "b" Val.none ValDict.nil))
        { with_color := false, omit_none_val := true }).data := by
  have h : PrettyLogger.i (Val.dict (ValDict.cons "b" Val.none ValDict.nil))
      { with_color := false, omit_none_val := true } = "\x7bb\x7d" := by
    simp only [PrettyLogger.i]
    rw [_dict_nc _ _ rfl]
    simp only [PrettyLogger.dictPairs]
    rfl
  exact ⟨h, by rw [h]; decide⟩

/-- The pair strings of a concatenated dict are the concatenated pair
strings. -/
theorem dictPairs_append (d1 d2 : ValDict) (o : RenderOpts) (sep : String) :
    PrettyLogger.dictPairs (ValDict.append d1 d2) o sep
      = PrettyLogger.dictPairs d1 o sep ++ PrettyLogger.dictPairs d2 o sep := by
  suffices hs : ∀ n (d1 : ValDict), sizeOf d1 ≤ n →
      PrettyLogger.dictPairs (ValDict.append d1 d2) o sep
        = PrettyLogger.dictPairs d1 o sep ++ PrettyLogger.dictPairs d2 o sep from
    hs (sizeOf d1) d1 (le_refl _)
  intro n
  induction n using Nat.strong_induction_on with
  | _ n ih =>
    intro d1 hsz
    match d1 with
    | ValDict.nil =>
      show PrettyLogger.dictPairs d2 o sep = PrettyLogger.dictPairs ValDict.nil o sep
        ++ PrettyLogger.dictPairs d2 o sep
      simp only [PrettyLogger.dictPairs]
      rfl
    | ValDict.cons k v tl =>
      have htl : sizeOf tl < sizeOf (ValDict.cons k v tl) := by
        simp only [ValDict.cons.sizeOf_spec]; omega
      show PrettyLogger.dictPairs (ValDict.cons k v (ValDict.append tl d2)) o sep = _
      simp only [PrettyLogger.dictPairs]
      rw [ih (sizeOf tl) (by omega) tl (le_refl _)]
      rfl

/-- C7 (amended): with `omit_none_val` set (rendering without color), a pair
whose value is `None` — at any position of any dict — contributes exactly
the bare key to the output: the key-value separator and the value are
omitted, but the key itself remains among the joined pairs. -/
theorem C7_omit_none_bare_key (pre post : ValDict) (k : String) :
    PrettyLogger.i (Val.dict (ValDict.append pre (ValDict.cons k Val.none post)))
        { with_color := false, omit_none_val := true }
      = "\x7b" ++ joinSep ", "
          (PrettyLogger.dictPairs pre { with_color := false, omit_none_val := true } ": "
            ++ k ::
              PrettyLogger.dictPairs post { with_color := false, omit_none_val := true } ": ")
        ++ "\x7d" := by
  simp only [PrettyLogger.i]
  rw [_dict_nc _ _ rfl, dictPairs_append]
  simp only [PrettyLogger.dictPairs]
  rfl

/-! ## C6: scientific-notation float rendering -/

/-- `str.replace` passes over a prefix free of the pattern head. -/
theorem listReplace_skip (p : Char) (ps repl : List Char) (pre l : List Char)
    (h : ∀ c ∈ pre, c ≠ p) :
    listReplace p ps repl (pre ++ l) = pre ++ listReplace p ps repl l := by
  induction pre with
  | nil => rfl
  | cons a as ih =>
    rw [List.cons_append, listReplace]
    have hpf : ¬ ((p :: ps).isPrefixOf (a :: (as ++ l)) = true) := by
      simp only [List.isPrefixOf, Bool.and_eq_true, beq_iff_eq]
      intro hc
      exact h a (by simp) hc.1.symm
    rw [if_neg hpf, ih (fun c hc => h c (List.mem_cons_of_mem a hc))]
    rfl

/-- `str.replace` fires on an occurrence at the head and continues after it. -/
theorem listReplace_head (p : Char) (ps repl l : List Char) :
    listReplace p ps repl ((p :: ps) ++ l) = repl ++ listReplace p ps repl l := by
  rw [List.cons_append, listReplace]
  have hpf : (p :: ps).isPrefixOf (p :: (ps ++ l)) = true := by
    simp only [List.isPrefixOf, Bool.and_eq_true, beq_iff_eq]
    exact ⟨trivial, List.isPrefixOf_iff_prefix.mpr (List.prefix_append ps l)⟩
  rw [if_pos hpf]
  exact congrArg (fun x => repl ++ listReplace p ps repl x) (List.drop_left ps l)

/-- C6: for every float whose default string form is in scientific notation
with a two-digit exponent starting in `0` (the shape Python produces, e.g.
`3e-05` for `3e-05`), `PrettyLogger._float` — and hence `PrettyLogger.i` —
returns the string with the redundant leading zero removed from the
exponent: `e-5`, not `e-05`.  The mantissa `m` is any string without an
exponent marker, `d` the exponent digit.  (`float_is_sci` is modelled from
the spec, see its definition.) -/
theorem C6_sci_float_strip_zero (m : String) (d : Char)
    (hm : ∀ c ∈ m.data, c ≠ 'e' ∧ c ≠ 'E') :
    PrettyLogger._float (m ++ "e-0" ++ String.mk [d]) Option.none = m ++ "e-" ++ String.mk [d]
    ∧ PrettyLogger.nc (Val.float (m ++ "e-0" ++ String.mk [d])) = m ++ "e-" ++ String.mk [d] := by
  have hdata : (m ++ "e-0" ++ String.mk [d]).data = m.data ++ ('e' :: '-' :: '0' :: [d]) := by
    simp [String.data_append]
  have hsci : float_is_sci (m ++ "e-0" ++ String.mk [d]) = true := by
    simp only [float_is_sci, hdata, List.any_append, Bool.or_eq_true]
    right
    simp
  have hsingle : listReplace 'e' ['-', '0'] "e-".data [d] = [d] := by
    rw [listReplace]
    have hng : ¬ (('e' :: ['-', '0']).isPrefixOf (d :: ([] : List Char)) = true) := by
      simp [List.isPrefixOf]
    rw [if_neg hng, listReplace]
  have hinner : listReplace 'e' ['-', '0'] "e-".data (m ++ "e-0" ++ String.mk [d]).data
      = m.data ++ ('e' :: '-' :: [d]) := by
    rw [hdata, show ('e' :: '-' :: '0' :: [d]) = ('e' :: ['-', '0']) ++ [d] from rfl,
      listReplace_skip 'e' ['-', '0'] "e-".data m.data _ (fun c hc => (hm c hc).1),
      listReplace_head, hsingle]
    rfl
  have houter : listReplace 'e' ['+', '0'] "e+".data (m.data ++ ('e' :: '-' :: [d]))
      = m.data ++ ('e' :: '-' :: [d]) := by
    rw [listReplace_skip 'e' ['+', '0'] "e+".data m.data _ (fun c hc => (hm c hc).1)]
    have h1 : ¬ (('e' :: ['+', '0']).isPrefixOf ('e' :: '-' :: [d]) = true) := by
      simp [List.isPrefixOf]
    have h2 : ¬ (('e' :: ['+', '0']).isPrefixOf ('-' :: [d]) = true) := by
      simp [List.isPrefixOf]
    have h3 : ¬ (('e' :: ['+', '0']).isPrefixOf (d :: ([] : List Char)) = true) := by
      simp [List.isPrefixOf]
    rw [listReplace, if_neg h1, listReplace, if_neg h2, listReplace, if_neg h3, listReplace]
  have hfl : PrettyLogger._float (m ++ "e-0" ++ String.mk [d]) Option.none
      = m ++ "e-" ++ String.mk [d] := by
    unfold PrettyLogger._float
    rw [if_pos hsci]
    have e1 : pyReplace (m ++ "e-0" ++ String.mk [d]) "e-0" "e-"
        = String.mk (m.data ++ ('e' :: '-' :: [d])) := by
      show String.mk (listReplace 'e' ['-', '0'] "e-".data (m ++ "e-0" ++ String.mk [d]).data) = _
      rw [hinner]
    rw [e1]
    show String.mk (listReplace 'e' ['+', '0'] "e+".data (m.data ++ ('e' :: '-' :: [d]))) = _
    rw [houter]
    apply String.ext
    simp [String.data_append]
  refine ⟨hfl, ?_⟩
  show PrettyLogger.i (Val.float (m ++ "e-0" ++ String.mk [d])) { with_color := false } = _
  simp only [PrettyLogger.i]
  rw [s_nc]
  exact hfl

/-- Witness for C6 at `3e-05`, which renders as `3e-5`. -/
theorem C6_sci_float_strip_zero_witness :
    (∀ c ∈ ("3" : String).data, c ≠ 'e' ∧ c ≠ 'E')
    ∧ PrettyLogger._float ("3" ++ "e-0" ++ String.mk ['5']) Option.none
        = "3" ++ "e-" ++ String.mk ['5']
    ∧ PrettyLogger.nc (Val.float ("3" ++ "e-0" ++ String.mk ['5']))
        = "3" ++ "e-" ++ String.mk ['5'] :=
  ⟨by decide, (C6_sci_float_strip_zero "3" '5' (by decide)).1,
    (C6_sci_float_strip_zero "3" '5' (by decide)).2⟩

/-! ## C3, C4, C5: loggers and handlers -/

theorem lookup_assocSet {α : Type} (l : List (String × α)) (k : String) (v : α) :
    List.lookup k (assocSet l k v) = some v := by
  induction l with
  | nil => simp [assocSet, List.lookup]
  | cons p tl ih =>
    match p with
    | (n, x) =>
      simp only [assocSet]
      by_cases hn : n = k
      · rw [if_pos hn]
        simp [List.lookup]
      · rw [if_neg hn]
        have hkn : (k == n) = false := beq_eq_false_iff_ne.mpr (fun he => hn he.symm)
        simp only [List.lookup, hkn]
        exact ih

/-- C3: two sequential `get_logger(name, kind="stdout")` calls both succeed,
both leave the same logger state behind (previously attached handlers are
cleared first), and that state has exactly one handler, a stdout one, with
propagation disabled. -/
theorem C3_get_logger_stdout_idempotent (reg : LoggerRegistry) (fs : FS) (name : String) :
    get_logger reg fs name "stdout" Option.none
        = Except.ok (assocSet reg name stdoutLogger, fs, stdoutLogger)
    ∧ get_logger (assocSet reg name stdoutLogger) fs name "stdout" Option.none
        = Except.ok (assocSet (assocSet reg name stdoutLogger) name stdoutLogger, fs,
            stdoutLogger)
    ∧ stdoutLogger.handlers.length = 1
    ∧ (∀ h ∈ stdoutLogger.handlers,
        h.stream_stdout = true ∧ h.filter_handler_name = some "stdout")
    ∧ stdoutLogger.propagate = false
    ∧ List.lookup name (assocSet (assocSet reg name stdoutLogger) name stdoutLogger)
        = some stdoutLogger := by
  have hcall : ∀ (r : LoggerRegistry), get_logger r fs name "stdout" Option.none
      = Except.ok (assocSet r name stdoutLogger, fs, stdoutLogger) := by
    intro r
    simp [get_logger, get_logging_handler, stdoutLogger, stdoutHandler, DEBUG_LEVEL]
  exact ⟨hcall reg, hcall _, by decide, by decide, by decide, lookup_assocSet _ _ _⟩

/-- C4: the two handlers built by `get_logging_handler(kind='both')` carry
the filter names `stdout` and `file`; a record with `block="stdout"` is
suppressed exactly by the stdout handler's filter, and a record with
`block="file"` exactly by the file handler's filter. -/
theorem C4_block_routing (fp : String) (fs : FS) (hfp : fp ≠ "") :
    ∃ (hStd hFile : LogHandler) (fs2 : FS),
      get_logging_handler "both" (some fp) fs = Except.ok ([hStd, hFile], fs2)
      ∧ hStd.filter_handler_name = some "stdout" ∧ hFile.filter_handler_name = some "file"
      ∧ HandlerFilter.filter hStd.filter_handler_name (some "stdout") = false
      ∧ HandlerFilter.filter hFile.filter_handler_name (some "stdout") = true
      ∧ HandlerFilter.filter hStd.filter_handler_name (some "file") = true
      ∧ HandlerFilter.filter hFile.filter_handler_name (some "file") = false := by
  refine ⟨stdoutHandler,
    { stream_stdout := false
      file_path := some fp
      level := DEBUG_LEVEL
      formatter_with_color := false
      filter_handler_name := some "file" },
    (if dirname fp ≠ "" ∧ ¬ dirname fp ∈ fs then dirname fp :: fs else fs),
    ?_, rfl, rfl, rfl, rfl, rfl, rfl⟩
  simp [get_logging_handler, optStrTruthy, hfp, stdoutHandler, DEBUG_LEVEL]

/-- Witness for C4 at `fp = "both.log"`, empty filesystem. -/
theorem C4_block_routing_witness :
    ("both.log" : String) ≠ "" ∧
      (∃ (hStd hFile : LogHandler) (fs2 : FS),
        get_logging_handler "both" (some "both.log") [] = Except.ok ([hStd, hFile], fs2)
        ∧ hStd.filter_handler_name = some "stdout" ∧ hFile.filter_handler_name = some "file"
        ∧ HandlerFilter.filter hStd.filter_handler_name (some "stdout") = false
        ∧ HandlerFilter.filter hFile.filter_handler_name (some "stdout") = true
        ∧ HandlerFilter.filter hStd.filter_handler_name (some "file") = true
        ∧ HandlerFilter.filter hFile.filter_handler_name (some "file") = false) :=
  ⟨by decide, C4_block_routing "both.log" [] (by decide)⟩

/-- C5: requesting a `file` handler without a path raises a `ValueError`
whose message names the missing parameter; requesting it with a path whose
parent directory is missing creates that directory before the handler is
returned (the returned filesystem contains the parent directory). -/
theorem C5_file_handler_path :
    (∀ fs : FS, get_logging_handler "file" Option.none fs
        = Except.error (PrettyLogger.i Val.none {} ++ " must be specified for "
            ++ PrettyLogger.i (Val.str "file") {} ++ " logging"))
    ∧ (∀ (fp : String) (fs : FS) (hs : List LogHandler) (fs2 : FS),
        get_logging_handler "file" (some fp) fs = Except.ok (hs, fs2) →
        (∃ h0 : LogHandler, hs = [h0] ∧ h0.stream_stdout = false ∧ h0.file_path = some fp)
        ∧ (dirname fp ≠ "" → dirname fp ∈ fs2)) := by
  constructor
  · intro fs
    simp [get_logging_handler, optStrTruthy]
  · intro fp fs hs fs2 hok
    by_cases hfp : fp = ""
    · subst hfp
      rw [get_logging_handler] at hok
      rw [if_neg (by decide : ¬ ("file" : String) = "both"),
        if_neg (by decide : ¬ ("file" : String) = "stdout"),
        if_pos (by decide : ¬ optStrTruthy (some "") = true)] at hok
      exact Except.noConfusion hok
    · rw [get_logging_handler] at hok
      rw [if_neg (by decide : ¬ ("file" : String) = "both"),
        if_neg (by decide : ¬ ("file" : String) = "stdout"),
        if_neg (by simp [optStrTruthy, hfp])] at hok
      simp only [Except.ok.injEq, Prod.mk.injEq] at hok
      obtain ⟨hhs, hfs2⟩ := hok
      constructor
      · refine ⟨_, hhs.symm, rfl, rfl⟩
      · intro hd
        rw [← hfs2]
        by_cases hmem : dirname fp ∈ fs
        · split
          · exact List.mem_cons_of_mem _ hmem
          · exact hmem
        · rw [if_pos ⟨hd, hmem⟩]
          exact List.mem_cons_self _ _

/-- Witness for C5 at `fp = "d/a.log"` on an empty filesystem: the ok-result
exists and the directory `d` was created. -/
theorem C5_file_handler_path_witness :
    (∃ h0 : LogHandler,
        [LogHandler.mk false (some "d/a.log") DEBUG_LEVEL false (some "file")] = [h0]
          ∧ h0.stream_stdout = false ∧ h0.file_path = some "d/a.log")
    ∧ (dirname "d/a.log" ≠ "" → dirname "d/a.log" ∈ (["d"] : FS)) := by
  have hok : get_logging_handler "file" (some "d/a.log") []
      = Except.ok ([LogHandler.mk false (some "d/a.log") DEBUG_LEVEL false (some "file")],
          (["d"] : FS)) := by
    rw [get_logging_handler,
      if_neg (by decide : ¬ ("file" : String) = "both"),
      if_neg (by decide : ¬ ("file" : String) = "stdout"),
      if_neg (by decide : ¬ ¬ optStrTruthy (some "d/a.log") = true)]
    rfl
  exact C5_file_handler_path.2 "d/a.log" [] _ _ hok

/-! ## C8: duplicate registration in `CheckArg` -/

/-- C8 (counterexample): re-registering the attribute name `x` through
`cache_mismatch` does not raise — the call returns normally and the second
closure silently overwrites the first. -/
theorem C8_counterexample :
    (CheckArg.cache_mismatch (CheckArg.cache_mismatch {} "Disp A" "x" ["a"])
        "Disp B" "x" ["b"]).d_name2func
      = [("x", ("Disp B", ["b"]))] := by
  decide

/-- C8 (amended): re-registering an existing attribute name raises
immediately in `cache_options` (prettier_log.py), while `cache_mismatch`
(prettier.py) silently overwrites the cached closure instead. -/
theorem C8_duplicate_registration (c : CheckArg) (dn attr : String) (opts : List String)
    (h : (List.lookup attr c.d_name2func).isSome = true) :
    CheckArg.cache_options c dn attr opts
        = Except.error ("Attribute name " ++ attr ++ " already exists")
    ∧ List.lookup attr (CheckArg.cache_mismatch c dn attr opts).d_name2func = some (dn, opts) := by
  constructor
  · simp [CheckArg.cache_options, h]
  · exact lookup_assocSet _ _ _

/-- Witness for C8 (amended) at a registry already holding `x`. -/
theorem C8_duplicate_registration_witness :
    (List.lookup "x" (CheckArg.cache_mismatch {} "A" "x" ["a"]).d_name2func).isSome = true
    ∧ (CheckArg.cache_options (CheckArg.cache_mismatch {} "A" "x" ["a"]) "B" "x" ["b"]
          = Except.error ("Attribute name " ++ "x" ++ " already exists")
      ∧ List.lookup "x" (CheckArg.cache_mismatch (CheckArg.cache_mismatch {} "A" "x" ["a"])
            "B" "x" ["b"]).d_name2func = some ("B", ["b"])) :=
  ⟨by decide, C8_duplicate_registration _ "B" "x" ["b"] (by decide)⟩

/-! ## C10: `HandlerFilter.filter` truth table -/

/-- C10: a record whose `block` marker is absent (`None`) or falsy (the
empty string) passes every handler's filter; the filter returns `False`
exactly when the marker is truthy and equal to the handler's name. -/
theorem C10_handler_filter (handler_name : Option String) (b : String) :
    HandlerFilter.filter handler_name Option.none = true
    ∧ HandlerFilter.filter handler_name (some "") = true
    ∧ (HandlerFilter.filter handler_name (some b) = false ↔ b ≠ "" ∧ handler_name = some b) := by
  refine ⟨rfl, ?_, ?_⟩
  · simp [HandlerFilter.filter]
  · show (if b ≠ "" ∧ handler_name = some b then false else true) = false ↔
      b ≠ "" ∧ handler_name = some b
    by_cases hcond : b ≠ "" ∧ handler_name = some b
    · rw [if_pos hcond]
      simp [hcond]
    · rw [if_neg hcond]
      simp [hcond]

end Stefutil
